import Mathlib

/-!
Verification of the remote-state-sync library (producer/consumer state
replication via batched patches) against its specification.

The embedding models:
* `src/src/proxy.ts`   — the mutation observer (deep proxy) on the producer;
* `src/src/provider.ts` — items, namespaces and the batching scheduler;
* `src/src/receiver.ts` — the consumer mirror registry and patch applier;
* `src/src/utils.ts`   — `navigatePath`, `setValueAtPath`, `deleteValueAtPath`,
  `addValueToSet`, `clearValue`.

JS values are modelled as finite trees (`Value`): records (`obj`), `Map`s
(`map`), `Set`s (`set`), scalars, and opaque leaves (`opaq`: Date / RegExp /
functions, which `shouldProxy` excludes from observation).  Reference
aliasing inside one value graph is not representable in a tree model; set
membership and map keys use structural equality, which is the spec's own
documented reading of JS SameValueZero for this design (structurally equal
composite set elements are declared ambiguous by the spec).  In-place
mutation at a location is re-embedded as a functional update at a path
(`updateAtPath`).  Vue ref mirrors (`_ref`, `_shallowRef`) are modelled in
their disposed state (`null`), in which every ref-side navigation in the
source starts from `null` and immediately no-ops.
-/

/-- A single step of a patch path: JS `string | number`, plus the `undefined`
step that arises in `SyncItemReceiver.applyPatch` when `path.length === 0`
(then `path[path.length - 1]` is `undefined`). -/
inductive Step where
  | str (s : String)
  | num (n : Int)
  | undef
deriving DecidableEq, Repr

/-- Patch operations, `src/src/types`: `'set' | 'delete' | 'clear' | 'add'`. -/
inductive PatchOp where
  | set
  | delete
  | clear
  | add
deriving DecidableEq, Repr

mutual
/-- A JS value tree: scalars, records, Maps, Sets and opaque leaves. -/
inductive Value where
  | undef
  | null
  | bool (b : Bool)
  | num (n : Int)
  | str (s : String)
  | opaq (id : Nat)
  | obj (fs : Fields)
  | map (es : Entries)
  | set (xs : Elems)
deriving DecidableEq, Repr

/-- Record fields of an `obj`, in property order. -/
inductive Fields where
  | nil
  | cons (k : String) (v : Value) (t : Fields)
deriving DecidableEq, Repr

/-- Entries of a `Map`, in insertion order. -/
inductive Entries where
  | nil
  | cons (k : Step) (v : Value) (t : Entries)
deriving DecidableEq, Repr

/-- Elements of a `Set`, in insertion order. -/
inductive Elems where
  | nil
  | cons (v : Value) (t : Elems)
deriving DecidableEq, Repr
end

/-- The wire-level patch, `src/src/types`:
`{ op, key, path, value? }` (`value` is absent for `delete` on
objects/maps and for `clear`). -/
structure Patch where
  op : PatchOp
  key : String
  path : List Step
  value : Option Value
deriving DecidableEq, Repr

/-- JS `ToPropertyKey` on a path step used as an object property name:
numbers print in decimal, `undefined` becomes `"undefined"`. -/
def Step.toProp : Step → String
  | .str s => s
  | .num n => toString n
  | .undef => "undefined"

/-- First field with the given name, JS property read (`undefined` if absent). -/
def Fields.getD : Fields → String → Value
  | .nil, _ => .undef
  | .cons k v t, key => if k = key then v else t.getD key

/-- Property write `obj[key] = x`: overwrite the first matching field in
place, else append (JS property order). -/
def Fields.setF : Fields → String → Value → Fields
  | .nil, key, x => .cons key x .nil
  | .cons k v t, key, x =>
      if k = key then .cons k x t else .cons k v (t.setF key x)

/-- Property delete `delete obj[key]`. -/
def Fields.erase : Fields → String → Fields
  | .nil, _ => .nil
  | .cons k v t, key =>
      if k = key then t.erase key else .cons k v (t.erase key)

/-- Whether a field with the given name is present. -/
def Fields.hasK : Fields → String → Bool
  | .nil, _ => false
  | .cons k _ t, key => k = key || t.hasK key

/-- Map read `m.get(k)` (`undefined` if absent). -/
def Entries.getD : Entries → Step → Value
  | .nil, _ => .undef
  | .cons k v t, key => if k = key then v else t.getD key

/-- Map write `m.set(k, x)`. -/
def Entries.setE : Entries → Step → Value → Entries
  | .nil, key, x => .cons key x .nil
  | .cons k v t, key, x =>
      if k = key then .cons k x t else .cons k v (t.setE key x)

/-- Map delete `m.delete(k)`. -/
def Entries.erase : Entries → Step → Entries
  | .nil, _ => .nil
  | .cons k v t, key =>
      if k = key then t.erase key else .cons k v (t.erase key)

/-- Map membership `m.has(k)`. -/
def Entries.hasK : Entries → Step → Bool
  | .nil, _ => false
  | .cons k _ t, key => k = key || t.hasK key

/-- Set membership `s.has(x)` (structural SameValueZero, per the spec's
documented set-element addressing tradeoff). -/
def Elems.hasV : Elems → Value → Bool
  | .nil, _ => false
  | .cons v t, x => v = x || t.hasV x

/-- Set insert `s.add(x)`: appended only if absent. -/
def Elems.add (xs : Elems) (x : Value) : Elems :=
  if xs.hasV x then xs else go xs
where
  go : Elems → Elems
    | .nil => .cons x .nil
    | .cons v t => .cons v (go t)

/-- Set delete `s.delete(x)`. -/
def Elems.erase : Elems → Value → Elems
  | .nil, _ => .nil
  | .cons v t, x => if v = x then t.erase x else .cons v (t.erase x)

/-- One navigation step: map nodes use key lookup (`current.get(step)`),
any other value uses property access (`current[step]`, `undefined` for
non-records).  Mirrors the loop body of `navigatePath` in `src/src/utils.ts`. -/
def Value.access : Value → Step → Value
  | .map es, s => es.getD s
  | .obj fs, s => fs.getD s.toProp
  | _, _ => (.undef)

/-- The `navigatePath(obj, path, start, end)` walk of `src/src/utils.ts`,
restricted to the slice it is called with: returns the moment the current
value is `undefined` or `null` (checked at the top of each iteration),
without raising. -/
def navigate : Value → List Step → Value
  | v, [] => v
  | .undef, _ :: _ => .undef
  | .null, _ :: _ => .null
  | v, s :: rest => navigate (v.access s) rest

/-- Whether a navigation result counts as a missing container
(`current === undefined || current === null`). -/
def Value.isMissing : Value → Bool
  | .undef => true
  | .null => true
  | _ => false

/-- The four in-place mutations the patch applier performs at a located
node: `setValueAtPath`, `deleteValueAtPath`, `addValueToSet`, `clearValue`
of `src/src/utils.ts`, with the located container as the node. -/
inductive NodeOp where
  | setK (k : Step) (x : Value)
  | delK (k : Step)
  | addE (x : Value)
  | delE (x : Value)
  | clearC
deriving DecidableEq, Repr

/-- The `setValueAtPath(current, key, value)` body: falsy currents return
early; a Map gets `set(key, value)`, a record gets the property write.
Property assignment on any other (truthy) value has no observable effect
on the tree. -/
def Value.setNode : Value → Step → Value → Value
  | .map es, k, x => .map (es.setE k x)
  | .obj fs, k, x => .obj (fs.setF k.toProp x)
  | v, _, _ => v

/-- The `deleteValueAtPath(current, key)` body. -/
def Value.delNode : Value → Step → Value
  | .map es, k => .map (es.erase k)
  | .obj fs, k => .obj (fs.erase k.toProp)
  | v, _ => v

/-- The `addValueToSet(current, value)` body: only a `Set` is touched. -/
def Value.addNode : Value → Value → Value
  | .set xs, x => .set (xs.add x)
  | v, _ => v

/-- The `clearValue(current)` body: a value with a callable `clear` (a Map
or a Set in the data model) is emptied, all else is untouched. -/
def Value.clearNode : Value → Value
  | .map _ => .map .nil
  | .set _ => .set .nil
  | v => v

/-- Set element removal `s.delete(x)`, the underlying effect of the set
proxy's `delete` trap (only a `Set` is touched). -/
def Value.delElemNode : Value → Value → Value
  | .set xs, x => .set (xs.erase x)
  | v, _ => v

/-- Dispatch of the node mutations. -/
def applyNode : NodeOp → Value → Value
  | .setK k x, v => v.setNode k x
  | .delK k, v => v.delNode k
  | .addE x, v => v.addNode x
  | .delE x, v => v.delElemNode x
  | .clearC, v => v.clearNode

/-- Update the first field with the given name by `f` (no effect when the
name is absent): the in-place mutation of a located record field during a
navigate-and-mutate walk. -/
def Fields.updFirst : Fields → String → (Value → Value) → Fields
  | .nil, _, _ => .nil
  | .cons k v t, key, f =>
      if k = key then .cons k (f v) t else .cons k v (t.updFirst key f)

/-- Update the first entry with the given key by `f` (no effect when the
key is absent). -/
def Entries.updFirst : Entries → Step → (Value → Value) → Entries
  | .nil, _, _ => .nil
  | .cons k v t, key, f =>
      if k = key then .cons k (f v) t else .cons k v (t.updFirst key f)

/-- Functional rendering of "navigate to `path` and mutate the located node
in place": walks the same branch `navigatePath` reads (map nodes by key,
records by property, first match) and applies the node mutation there.  A
step that does not resolve leaves the tree unchanged, matching the silent
early returns of the navigation/mutation helpers. -/
def updateAtPath (v : Value) (ps : List Step) (op : NodeOp) : Value :=
  match ps with
  | [] => applyNode op v
  | s :: rest =>
      match v with
      | .obj fs => .obj (fs.updFirst s.toProp (fun x => updateAtPath x rest op))
      | .map es => .map (es.updFirst s (fun x => updateAtPath x rest op))
      | v => v

/-- The last path step as the applier reads it: `path[path.length - 1]`,
which is JS `undefined` when the path is empty. -/
def lastKeyOf (ps : List Step) : Step :=
  (ps.getLast?).getD (.undef)

/-- The consumer-side `SyncItemReceiver.applyPatch` of `src/src/receiver.ts`
(refs disposed).  A path of length one is a root-level patch: only `set`
does anything, wholesale-replacing `this.value` with `patch.value`.  All
other shapes are nested: `set`/`delete` navigate `path[1 .. len-1]` to the
parent and mutate its `path[len-1]` slot; `add`/`clear` navigate the full
`path[1 ..]` to the container itself.  For an empty path the JS code reads
`path[-1]` (`undefined`) as the final key and navigates nothing. -/
def applyPatch (v : Value) (p : Patch) : Value :=
  match p.path with
  | [_] => if p.op = .set then p.value.getD .undef else v
  | path =>
      match p.op with
      | .set =>
          updateAtPath v ((path.drop 1).dropLast)
            (.setK (lastKeyOf path) (p.value.getD .undef))
      | .delete =>
          updateAtPath v ((path.drop 1).dropLast) (.delK (lastKeyOf path))
      | .add => updateAtPath v (path.drop 1) (.addE (p.value.getD .undef))
      | .clear => updateAtPath v (path.drop 1) .clearC

/-- The consumer-side `applyPatchToObject` of `src/src/receiver.ts`: applied
to the buffered namespace snapshot for items not yet synced.  Unlike
`applyPatch` it navigates the full patch path from the snapshot record, so
`path[0]` is consumed as a snapshot property. -/
def applyPatchToObject (v : Value) (p : Patch) : Value :=
  match p.path with
  | [] => v
  | _ =>
      match p.op with
      | .clear => updateAtPath v p.path .clearC
      | .add => updateAtPath v p.path (.addE (p.value.getD .undef))
      | .set =>
          updateAtPath v p.path.dropLast
            (.setK (lastKeyOf p.path) (p.value.getD .undef))
      | .delete =>
          updateAtPath v p.path.dropLast (.delK (lastKeyOf p.path))

/-- Association-list read used for the string-keyed item registries
(`Map<string, …>`). -/
def lookupFirst : List (String × Value) → String → Option Value
  | [], _ => none
  | (k, v) :: t, key => if k = key then some v else lookupFirst t key

/-- Replace the first binding of a key in an association list. -/
def setAssocFirst : List (String × Value) → String → Value → List (String × Value)
  | [], _, _ => []
  | (k, v) :: t, key, x =>
      if k = key then (k, x) :: t else (k, v) :: setAssocFirst t key x

/-- State of one `SyncNamespaceReceiver`: the mirrors of the synced items
(keyed by item key) and the buffered namespace snapshot record. -/
structure NsRecv where
  items : List (String × Value)
  snapshot : Value
deriving DecidableEq, Repr

/-- One iteration of the patch loop in `SyncNamespaceReceiver.applyPatches`:
a patch with an empty path is skipped (`continue`); otherwise `path[0]` is
read as the item key (`patch.path[0] as string` — a non-string first step
never matches the string-keyed registry) and the patch is applied to that
item's mirror, or to the buffered snapshot when the item is not yet synced. -/
def recvStep (st : NsRecv) (p : Patch) : NsRecv :=
  match p.path with
  | [] => st
  | s :: _ =>
      match s with
      | .str k =>
          match lookupFirst st.items k with
          | some m => { st with items := setAssocFirst st.items k (applyPatch m p) }
          | none => { st with snapshot := applyPatchToObject st.snapshot p }
      | _ => { st with snapshot := applyPatchToObject st.snapshot p }

/-- The full `SyncNamespaceReceiver.applyPatches` loop over one delivered
batch, in delivery order (the per-item update notifications carry no state
and are not modelled). -/
def recvApplyPatches (st : NsRecv) (ps : List Patch) : NsRecv :=
  ps.foldl recvStep st

/-- The consumer-side `SyncNamespaceReceiver.sync(key)`: an already-synced
key returns its item; otherwise the item is constructed from
`this.snapshot[key]` (JS `undefined` when the snapshot has no such
property), never failing.  Returns the new namespace state and the
constructed item's mirror value. -/
def recvSync (st : NsRecv) (key : String) : NsRecv × Value :=
  match lookupFirst st.items key with
  | some m => (st, m)
  | none =>
      let v := st.snapshot.access (.str key)
      ({ st with items := st.items ++ [(key, v)] }, v)

/-- Producer-side map proxy `delete(k)` trap (`createMapProxy` in
`src/src/proxy.ts`): always performs the underlying delete, emits
`{op: delete, key, path: base ++ [k]}` only when the key existed before. -/
def mapProxyDelete (rootKey : String) (base : List Step) (es : Entries)
    (k : Step) : Entries × List Patch :=
  (es.erase k,
   if es.hasK k then [⟨.delete, rootKey, base ++ [k], none⟩] else [])

/-- Producer-side map proxy `set(k, x)` trap: performs the write and always
emits `{op: set, key, path: base ++ [k], value: x}`. -/
def mapProxySet (rootKey : String) (base : List Step) (es : Entries)
    (k : Step) (x : Value) : Entries × List Patch :=
  (es.setE k x, [⟨.set, rootKey, base ++ [k], some x⟩])

/-- Producer-side map proxy `clear()` trap: when non-empty, clears and
emits one `{op: clear, key, path: base}`; when already empty, neither
clears nor emits. -/
def mapProxyClear (rootKey : String) (base : List Step) (es : Entries) :
    Entries × List Patch :=
  match es with
  | .nil => (es, [])
  | _ => (.nil, [⟨.clear, rootKey, base, none⟩])

/-- Producer-side set proxy `add(x)` trap (`createSetProxy`): always
performs the underlying add, emits `{op: add, key, path: base, value: x}`
only when the element was absent before. -/
def setProxyAdd (rootKey : String) (base : List Step) (xs : Elems)
    (x : Value) : Elems × List Patch :=
  (xs.add x,
   if xs.hasV x then [] else [⟨.add, rootKey, base, some x⟩])

/-- Producer-side set proxy `delete(x)` trap: always performs the
underlying delete, emits `{op: delete, key, path: base, value: x}` only
when the element was present before. -/
def setProxyDelete (rootKey : String) (base : List Step) (xs : Elems)
    (x : Value) : Elems × List Patch :=
  (xs.erase x,
   if xs.hasV x then [⟨.delete, rootKey, base, some x⟩] else [])

/-- Producer-side set proxy `clear()` trap: when non-empty, clears and
emits one `{op: clear, key, path: base}`. -/
def setProxyClear (rootKey : String) (base : List Step) (xs : Elems) :
    Elems × List Patch :=
  match xs with
  | .nil => (xs, [])
  | _ => (.nil, [⟨.clear, rootKey, base, none⟩])

/-- A mutation performed through the observer-wrapped handle of an item's
root value.  `base` is the handle's path prefix from the item root; object
property keys arrive at the proxy traps as strings. -/
inductive MutCmd where
  | assign (base : List Step) (prop : String) (x : Value)
  | delProp (base : List Step) (prop : String)
  | mapSet (base : List Step) (k : Step) (x : Value)
  | mapDelete (base : List Step) (k : Step)
  | mapClear (base : List Step)
  | setAdd (base : List Step) (x : Value)
  | setDelete (base : List Step) (x : Value)
  | setClear (base : List Step)
deriving DecidableEq, Repr

/-- Run one observed mutation against the wrapped root value
(`createDeepProxy` trap dispatch in `src/src/proxy.ts`): the mutation
both performs its underlying effect and synchronously emits the patches of
the corresponding trap.  A command whose handle path does not lead to a
node of the right kind has no effect (such a handle cannot be obtained
through the proxy's lazy wrapping). -/
def runCmdW (rootKey : String) (root : Value) : MutCmd → Value × List Patch
  | .assign base prop x =>
      match navigate root base with
      | .obj _ => (updateAtPath root base (.setK (.str prop) x),
                   [⟨.set, rootKey, base ++ [.str prop], some x⟩])
      | _ => (root, [])
  | .delProp base prop =>
      match navigate root base with
      | .obj _ => (updateAtPath root base (.delK (.str prop)),
                   [⟨.delete, rootKey, base ++ [.str prop], none⟩])
      | _ => (root, [])
  | .mapSet base k x =>
      match navigate root base with
      | .map _ => (updateAtPath root base (.setK k x),
                   [⟨.set, rootKey, base ++ [k], some x⟩])
      | _ => (root, [])
  | .mapDelete base k =>
      match navigate root base with
      | .map es => (updateAtPath root base (.delK k),
                    (mapProxyDelete rootKey base es k).2)
      | _ => (root, [])
  | .mapClear base =>
      match navigate root base with
      | .map es =>
          (match es with
           | .nil => root
           | _ => updateAtPath root base .clearC,
           (mapProxyClear rootKey base es).2)
      | _ => (root, [])
  | .setAdd base x =>
      match navigate root base with
      | .set xs => (updateAtPath root base (.addE x),
                    (setProxyAdd rootKey base xs x).2)
      | _ => (root, [])
  | .setDelete base x =>
      match navigate root base with
      | .set xs => (updateAtPath root base (.delE x),
                    (setProxyDelete rootKey base xs x).2)
      | _ => (root, [])
  | .setClear base =>
      match navigate root base with
      | .set xs =>
          (match xs with
           | .nil => root
           | _ => updateAtPath root base .clearC,
           (setProxyClear rootKey base xs).2)
      | _ => (root, [])

/-- Run a synchronous sequence of observed mutations, collecting the
emitted patches in call order. -/
def runCmdsW (rootKey : String) (root : Value) (cmds : List MutCmd) :
    Value × List Patch :=
  cmds.foldl
    (fun acc c =>
      let r := runCmdW rootKey acc.1 c
      (r.1, acc.2 ++ r.2))
    (root, [])

/-- The private `SyncItemProvider.setValue` of `src/src/provider.ts`:
emits the wholesale root replacement patch `{op: set, key, path: [],
value}` and installs the new value wrapped by `createDeepProxy` (the
wrapper is transparent for the value tree). -/
def itemSetValue (key : String) (v : Value) : Value × List Patch :=
  (v, [⟨.set, key, [], some v⟩])

/-- Argument of `SyncItemProvider.set`: a concrete value, or an updater
given as the observed mutations it performs on its argument plus its
optional return value (`undefined` return modelled as `none`). -/
inductive SetArg where
  | val (v : Value)
  | upd (cmds : List MutCmd) (ret : Option Value)
deriving Repr

/-- `SyncItemProvider.set(valOrUpdater)` of `src/src/provider.ts`: a
concrete value goes straight to `setValue`; an updater is invoked with
`this.value` — the *proxy-wrapped* current root, so its mutations emit
patches — and its non-`undefined` return value is then passed to
`setValue` exactly like the concrete case. -/
def itemSet (key : String) (cur : Value) : SetArg → Value × List Patch
  | .val v => itemSetValue key v
  | .upd cmds ret =>
      let pr := runCmdsW key cur cmds
      match ret with
      | some r =>
          let qr := itemSetValue key r
          (qr.1, pr.2 ++ qr.2)
      | none => pr

/-- Modelled from the spec (claim C4's wording, for comparison with
`itemSet`): `set` invokes the updater with the current *raw (unwrapped)*
root value, so mutations performed on the argument bypass observation and
emit nothing; only a non-`undefined` return is observable, replacing the
root wholesale like the concrete case. -/
def itemSetClaimC4 (key : String) (cur : Value) : SetArg → Value × List Patch
  | .val v => itemSetValue key v
  | .upd cmds ret =>
      let v1 := (runCmdsW key cur cmds).1
      match ret with
      | some r => itemSetValue key r
      | none => (v1, [])

/-- State of one `SyncNamespaceProvider` (`src/src/provider.ts`): registered
items (key and current root value), the append-only pending-patch queue,
the `emitTimeout` handle (as a flag), a count of how many deferred flushes
have ever been scheduled, and the log of batches published on the bus. -/
structure NsProv where
  items : List (String × Value)
  queued : List Patch
  timeoutSet : Bool
  schedCount : Nat
  published : List (List Patch)
deriving DecidableEq, Repr

/-- The private `SyncNamespaceProvider.queuePatch`: append to the queue;
if no flush is pending (`!this.emitTimeout`), schedule exactly one. -/
def queuePatch (st : NsProv) (p : Patch) : NsProv :=
  { st with
    queued := st.queued ++ [p],
    timeoutSet := true,
    schedCount := if st.timeoutSet then st.schedCount else st.schedCount + 1 }

/-- The private `SyncNamespaceProvider.emitPatches` (the scheduled flush):
an empty queue returns early and publishes nothing; otherwise it takes the
whole queue, resets it and the schedule handle, and publishes the queue as
one ordered batch on the bus. -/
def emitPatches (st : NsProv) : NsProv :=
  if st.queued = [] then st
  else
    { st with
      queued := [],
      timeoutSet := false,
      published := st.published ++ [st.queued] }

/-- Queue a list of synchronously emitted patches in order. -/
def nsQueueAll (st : NsProv) (ps : List Patch) : NsProv :=
  ps.foldl queuePatch st

/-- `SyncNamespaceProvider.sync(key, initialValue?)`: a duplicate key
throws; otherwise the item is created with its `onPatch` wired to
`queuePatch`, and a supplied initial value goes through `setValue`
(`initialValue !== undefined` — the item's `value` member stays
uninitialized, i.e. `undefined`, when no initial value is given). -/
def nsSync (st : NsProv) (key : String) (initVal : Option Value) :
    Except String NsProv :=
  if (lookupFirst st.items key).isSome then
    .error ("Item " ++ key ++ " already registered")
  else
    match initVal with
    | none => .ok { st with items := st.items ++ [(key, .undef)] }
    | some v =>
        let pr := itemSetValue key v
        .ok (nsQueueAll { st with items := st.items ++ [(key, pr.1)] } pr.2)

/-- A producer-side mutation of a registered item, with the item's emitted
patches routed synchronously into the namespace queue. -/
def nsMutate (st : NsProv) (key : String) (a : SetArg) : NsProv :=
  match lookupFirst st.items key with
  | none => st
  | some cur =>
      let pr := itemSet key cur a
      nsQueueAll { st with items := setAssocFirst st.items key pr.1 } pr.2

/-- One scheduling cycle at the queue level: a synchronous burst of emitted
patches followed by the single deferred flush that the first of them
scheduled. -/
def runCycle (st : NsProv) (ps : List Patch) : NsProv :=
  emitPatches (nsQueueAll st ps)

/-- Association-list read for the namespace registry. -/
def assocNs : List (String × NsProv) → String → Option NsProv
  | [], _ => none
  | (k, v) :: t, key => if k = key then some v else assocNs t key

/-- Item registry as a snapshot record, `SyncNamespaceProvider.getSnapshot`:
one property per item, holding `item.toValue()`. -/
def fieldsOfItems : List (String × Value) → Fields
  | [] => .nil
  | (k, v) :: t => .cons k v (fieldsOfItems t)

/-- State of a `SyncProvider`: its namespace registry. -/
structure Prov where
  namespaces : List (String × NsProv)
deriving DecidableEq, Repr

/-- `SyncProvider.getStateSnapshot(namespace)`: throws
`Namespace … not found` for an unregistered namespace, otherwise returns
the namespace's snapshot record. -/
def getStateSnapshot (pv : Prov) (name : String) : Except String Value :=
  match assocNs pv.namespaces name with
  | none => .error ("Namespace " ++ name ++ " not found")
  | some ns => .ok (.obj (fieldsOfItems ns.items))

/-- The container path a patch addresses during application: `set`/`delete`
navigate to the parent over `path[1 .. len-1]`, `add`/`clear` navigate to
the container over the full `path[1 ..]`. -/
def containerSteps (p : Patch) : List Step :=
  match p.op with
  | .set => (p.path.drop 1).dropLast
  | .delete => (p.path.drop 1).dropLast
  | .add => p.path.drop 1
  | .clear => p.path.drop 1

theorem nsQueueAll_queued (ps : List Patch) (st : NsProv) :
    (nsQueueAll st ps).queued = st.queued ++ ps := by
  induction ps generalizing st with
  | nil => simp [nsQueueAll]
  | cons p t ih =>
      simp [nsQueueAll, List.foldl_cons] at ih ⊢
      rw [ih]
      simp [queuePatch]

theorem nsQueueAll_published (ps : List Patch) (st : NsProv) :
    (nsQueueAll st ps).published = st.published := by
  induction ps generalizing st with
  | nil => simp [nsQueueAll]
  | cons p t ih =>
      simp [nsQueueAll, List.foldl_cons] at ih ⊢
      rw [ih]
      simp [queuePatch]

theorem nsQueueAll_items (ps : List Patch) (st : NsProv) :
    (nsQueueAll st ps).items = st.items := by
  induction ps generalizing st with
  | nil => simp [nsQueueAll]
  | cons p t ih =>
      simp [nsQueueAll, List.foldl_cons] at ih ⊢
      rw [ih]
      simp [queuePatch]

theorem nsQueueAll_timeoutSet (ps : List Patch) (st : NsProv)
    (h : st.timeoutSet = true) : (nsQueueAll st ps).timeoutSet = true := by
  induction ps generalizing st with
  | nil => simpa [nsQueueAll]
  | cons p t ih =>
      simp [nsQueueAll, List.foldl_cons] at ih ⊢
      exact ih _ rfl

theorem nsQueueAll_timeoutSet_cons (p : Patch) (ps : List Patch) (st : NsProv) :
    (nsQueueAll st (p :: ps)).timeoutSet = true := by
  simp [nsQueueAll, List.foldl_cons]
  exact nsQueueAll_timeoutSet ps _ rfl

theorem nsQueueAll_schedCount_of_set (ps : List Patch) (st : NsProv)
    (h : st.timeoutSet = true) : (nsQueueAll st ps).schedCount = st.schedCount := by
  induction ps generalizing st with
  | nil => simp [nsQueueAll]
  | cons p t ih =>
      simp [nsQueueAll, List.foldl_cons] at ih ⊢
      rw [ih _ rfl]
      simp [queuePatch, h]

/-- Structural induction on `Fields` alone (the mutual recursor of the
value types has multiple motives, which the `induction` tactic rejects). -/
theorem fieldsInductionOn {motive : Fields → Prop} (fs : Fields)
    (h0 : motive .nil)
    (h1 : ∀ k v t, motive t → motive (.cons k v t)) : motive fs :=
  match fs with
  | .nil => h0
  | .cons k v t => h1 k v t (fieldsInductionOn t h0 h1)

/-- Structural induction on `Entries` alone. -/
theorem entriesInductionOn {motive : Entries → Prop} (es : Entries)
    (h0 : motive .nil)
    (h1 : ∀ k v t, motive t → motive (.cons k v t)) : motive es :=
  match es with
  | .nil => h0
  | .cons k v t => h1 k v t (entriesInductionOn t h0 h1)

/-- Structural induction on `Elems` alone. -/
theorem elemsInductionOn {motive : Elems → Prop} (xs : Elems)
    (h0 : motive .nil)
    (h1 : ∀ v t, motive t → motive (.cons v t)) : motive xs :=
  match xs with
  | .nil => h0
  | .cons v t => h1 v t (elemsInductionOn t h0 h1)

theorem Fields.setF_setF (fs : Fields) (k : String) (x : Value) :
    (fs.setF k x).setF k x = fs.setF k x := by
  induction fs using fieldsInductionOn with
  | h0 => simp [Fields.setF]
  | h1 kk v t ih =>
      by_cases h : kk = k
      · simp [Fields.setF, h]
      · simp [Fields.setF, h, ih]

theorem Entries.setE_setE (es : Entries) (k : Step) (x : Value) :
    (es.setE k x).setE k x = es.setE k x := by
  induction es using entriesInductionOn with
  | h0 => simp [Entries.setE]
  | h1 kk v t ih =>
      by_cases h : kk = k
      · simp [Entries.setE, h]
      · simp [Entries.setE, h, ih]

theorem Fields.eraseF_idem (fs : Fields) (k : String) :
    (fs.erase k).erase k = fs.erase k := by
  induction fs using fieldsInductionOn with
  | h0 => simp [Fields.erase]
  | h1 kk v t ih =>
      by_cases h : kk = k
      · simp [Fields.erase, h, ih]
      · simp [Fields.erase, h, ih]

theorem Entries.eraseE_idem (es : Entries) (k : Step) :
    (es.erase k).erase k = es.erase k := by
  induction es using entriesInductionOn with
  | h0 => simp [Entries.erase]
  | h1 kk v t ih =>
      by_cases h : kk = k
      · simp [Entries.erase, h, ih]
      · simp [Entries.erase, h, ih]

theorem Elems.hasV_go (x : Value) (xs : Elems) :
    (Elems.add.go x xs).hasV x = true := by
  induction xs using elemsInductionOn with
  | h0 => simp [Elems.add.go, Elems.hasV]
  | h1 v t ih => simp [Elems.add.go, Elems.hasV, ih]

theorem Elems.hasV_add (xs : Elems) (x : Value) : (xs.add x).hasV x = true := by
  rw [Elems.add]
  by_cases h : xs.hasV x
  · simp [h]
  · simp [h, Elems.hasV_go]

theorem Elems.add_add (xs : Elems) (x : Value) : (xs.add x).add x = xs.add x := by
  have h := Elems.hasV_add xs x
  conv_lhs => rw [Elems.add]
  simp [h]

theorem Elems.eraseL_idem (xs : Elems) (x : Value) :
    (xs.erase x).erase x = xs.erase x := by
  induction xs using elemsInductionOn with
  | h0 => simp [Elems.erase]
  | h1 v t ih =>
      by_cases h : v = x
      · simp [Elems.erase, h, ih]
      · simp [Elems.erase, h, ih]

theorem applyNode_idem (op : NodeOp) (v : Value) :
    applyNode op (applyNode op v) = applyNode op v := by
  cases op with
  | setK k x =>
      cases v <;>
        simp [applyNode, Value.setNode, Fields.setF_setF, Entries.setE_setE]
  | delK k =>
      cases v <;>
        simp [applyNode, Value.delNode, Fields.eraseF_idem, Entries.eraseE_idem]
  | addE x =>
      cases v <;> simp [applyNode, Value.addNode, Elems.add_add]
  | delE x =>
      cases v <;> simp [applyNode, Value.delElemNode, Elems.eraseL_idem]
  | clearC =>
      cases v <;> simp [applyNode, Value.clearNode]

theorem Fields.updFirstF_twice (fs : Fields) (key : String)
    (f : Value → Value) (h : ∀ x, f (f x) = f x) :
    (fs.updFirst key f).updFirst key f = fs.updFirst key f := by
  induction fs using fieldsInductionOn with
  | h0 => simp [Fields.updFirst]
  | h1 k v t ih =>
      by_cases hk : k = key
      · simp [Fields.updFirst, hk, h v]
      · simp [Fields.updFirst, hk, ih]

theorem Entries.updFirstE_twice (es : Entries) (key : Step)
    (f : Value → Value) (h : ∀ x, f (f x) = f x) :
    (es.updFirst key f).updFirst key f = es.updFirst key f := by
  induction es using entriesInductionOn with
  | h0 => simp [Entries.updFirst]
  | h1 k v t ih =>
      by_cases hk : k = key
      · simp [Entries.updFirst, hk, h v]
      · simp [Entries.updFirst, hk, ih]

theorem updateAtPath_idem (ps : List Step) (op : NodeOp) :
    ∀ v : Value, updateAtPath (updateAtPath v ps op) ps op =
      updateAtPath v ps op := by
  induction ps with
  | nil => intro v; simp [updateAtPath, applyNode_idem]
  | cons s rest ih =>
      intro v
      match v with
      | .obj fs =>
          simp only [updateAtPath]
          rw [Fields.updFirstF_twice fs s.toProp _ ih]
      | .map es =>
          simp only [updateAtPath]
          rw [Entries.updFirstE_twice es s _ ih]
      | .undef | .null | .bool _ | .num _ | .str _ | .opaq _ | .set _ =>
          simp [updateAtPath]

theorem applyNode_undef (op : NodeOp) : applyNode op .undef = .undef := by
  cases op <;>
    simp [applyNode, Value.setNode, Value.delNode, Value.addNode,
      Value.delElemNode, Value.clearNode]

theorem applyNode_null (op : NodeOp) : applyNode op .null = .null := by
  cases op <;>
    simp [applyNode, Value.setNode, Value.delNode, Value.addNode,
      Value.delElemNode, Value.clearNode]

theorem Fields.updFirstF_eq_self (fs : Fields) (key : String)
    (f : Value → Value) (h : f (fs.getD key) = fs.getD key) :
    fs.updFirst key f = fs := by
  induction fs using fieldsInductionOn with
  | h0 => simp [Fields.updFirst]
  | h1 k v t ih =>
      by_cases hk : k = key
      · simp [Fields.getD, hk] at h
        simp [Fields.updFirst, hk, h]
      · simp [Fields.getD, hk] at h
        simp [Fields.updFirst, hk, ih h]

theorem Entries.updFirstE_eq_self (es : Entries) (key : Step)
    (f : Value → Value) (h : f (es.getD key) = es.getD key) :
    es.updFirst key f = es := by
  induction es using entriesInductionOn with
  | h0 => simp [Entries.updFirst]
  | h1 k v t ih =>
      by_cases hk : k = key
      · simp [Entries.getD, hk] at h
        simp [Entries.updFirst, hk, h]
      · simp [Entries.getD, hk] at h
        simp [Entries.updFirst, hk, ih h]

theorem updateAtPath_missing (ps : List Step) (op : NodeOp) :
    ∀ v : Value, (navigate v ps).isMissing = true →
      updateAtPath v ps op = v := by
  induction ps with
  | nil =>
      intro v h
      match v with
      | .undef => simp [updateAtPath, applyNode_undef]
      | .null => simp [updateAtPath, applyNode_null]
      | .bool _ | .num _ | .str _ | .opaq _ | .obj _ | .map _ | .set _ =>
          simp [navigate, Value.isMissing] at h
  | cons s rest ih =>
      intro v h
      match v with
      | .undef | .null | .bool _ | .num _ | .str _ | .opaq _ | .set _ =>
          simp [updateAtPath]
      | .obj fs =>
          have h2 : (navigate (fs.getD s.toProp) rest).isMissing = true := by
            simpa [navigate, Value.access] using h
          simp only [updateAtPath]
          rw [Fields.updFirstF_eq_self fs s.toProp _ (ih _ h2)]
      | .map es =>
          have h2 : (navigate (es.getD s) rest).isMissing = true := by
            simpa [navigate, Value.access] using h
          simp only [updateAtPath]
          rw [Entries.updFirstE_eq_self es s _ (ih _ h2)]

theorem setAssocFirst_self (l : List (String × Value)) (key : String)
    (v : Value) (h : lookupFirst l key = some v) :
    setAssocFirst l key v = l := by
  induction l with
  | nil => simp [setAssocFirst]
  | cons hd t ih =>
      obtain ⟨k, x⟩ := hd
      by_cases hk : k = key
      · simp [lookupFirst, hk] at h
        simp [setAssocFirst, hk, h]
      · simp [lookupFirst, hk] at h
        simp [setAssocFirst, hk, ih h]

theorem lookupFirst_append_new (l : List (String × Value)) (key : String)
    (v : Value) (h : lookupFirst l key = none) :
    lookupFirst (l ++ [(key, v)]) key = some v := by
  induction l with
  | nil => simp [lookupFirst]
  | cons hd t ih =>
      obtain ⟨k, x⟩ := hd
      by_cases hk : k = key
      · simp [lookupFirst, hk] at h
      · simp [lookupFirst, hk] at h ⊢
        exact ih h

theorem Fields.getD_of_not_hasK (fs : Fields) (key : String)
    (h : fs.hasK key = false) : fs.getD key = .undef := by
  induction fs using fieldsInductionOn with
  | h0 => simp [Fields.getD]
  | h1 k v t ih =>
      simp [Fields.hasK] at h
      simp [Fields.getD, h.1, ih h.2]

theorem Entries.hasK_erase (es : Entries) (k : Step) :
    (es.erase k).hasK k = false := by
  induction es using entriesInductionOn with
  | h0 => simp [Entries.erase, Entries.hasK]
  | h1 kk v t ih =>
      by_cases h : kk = k
      · simp [Entries.erase, h, ih]
      · simp [Entries.erase, Entries.hasK, h, ih]

theorem Elems.hasV_erase (xs : Elems) (x : Value) :
    (xs.erase x).hasV x = false := by
  induction xs using elemsInductionOn with
  | h0 => simp [Elems.erase, Elems.hasV]
  | h1 v t ih =>
      by_cases h : v = x
      · simp [Elems.erase, h, ih]
      · simp [Elems.erase, Elems.hasV, h, ih]

theorem emitPatches_of_empty (st : NsProv) (h : st.queued = []) :
    emitPatches st = st := by
  simp [emitPatches, h]

theorem emitPatches_of_ne (st : NsProv) (h : st.queued ≠ []) :
    emitPatches st =
      { st with
        queued := [], timeoutSet := false,
        published := st.published ++ [st.queued] } := by
  simp [emitPatches, h]

/-- C2: for every burst of N >= 1 patches emitted synchronously within one
scheduling cycle of a namespace, exactly one deferred flush is scheduled
and, when it runs, exactly one batch is published, containing exactly
those N patches in emission order; a flush that finds an empty queue
publishes nothing; and running a second cycle appends its own separate
batch — batches from distinct cycles are never merged. -/
theorem c2_batch_coalescing (st : NsProv) (ps qs : List Patch)
    (hq : st.queued = []) (ht : st.timeoutSet = false) (hne : ps ≠ []) :
    (nsQueueAll st ps).schedCount = st.schedCount + 1 ∧
    (runCycle st ps).published = st.published ++ [ps] ∧
    (runCycle st ps).queued = [] ∧
    emitPatches st = st ∧
    (runCycle (runCycle st ps) qs).published =
      st.published ++ [ps] ++ (if qs = [] then [] else [qs]) := by
  have hq1 : (nsQueueAll st ps).queued = ps := by
    rw [nsQueueAll_queued, hq, List.nil_append]
  have hp1 : (nsQueueAll st ps).published = st.published :=
    nsQueueAll_published ps st
  have hcyc : runCycle st ps =
      { nsQueueAll st ps with
        queued := [], timeoutSet := false,
        published := st.published ++ [ps] } := by
    unfold runCycle
    rw [emitPatches_of_ne _ (by rw [hq1]; exact hne), hq1, hp1]
  refine ⟨?_, ?_, ?_, emitPatches_of_empty st hq, ?_⟩
  · cases ps with
    | nil => exact absurd rfl hne
    | cons p t =>
        have hsplit : nsQueueAll st (p :: t) = nsQueueAll (queuePatch st p) t := by
          simp [nsQueueAll, List.foldl_cons]
        rw [hsplit, nsQueueAll_schedCount_of_set t _ (by simp [queuePatch])]
        simp [queuePatch, ht]
  · rw [hcyc]
  · rw [hcyc]
  · rw [hcyc]
    by_cases hqs : qs = []
    · subst hqs
      simp [runCycle, nsQueueAll, emitPatches_of_empty]
    · have hq2 : (nsQueueAll
          { nsQueueAll st ps with
            queued := [], timeoutSet := false,
            published := st.published ++ [ps] } qs).queued = qs := by
        rw [nsQueueAll_queued]
        simp
      unfold runCycle
      rw [emitPatches_of_ne _ (by rw [hq2]; exact hqs), hq2,
        nsQueueAll_published]
      simp [hqs]

/-- C2 witness: a concrete two-patch cycle followed by a one-patch cycle. -/
theorem c2_batch_coalescing_witness :
    ([⟨.set, "a", [], some (.num 1)⟩, ⟨.set, "a", [], some (.num 2)⟩] :
        List Patch) ≠ [] ∧
    (nsQueueAll ⟨[], [], false, 0, []⟩
        [⟨.set, "a", [], some (.num 1)⟩,
         ⟨.set, "a", [], some (.num 2)⟩]).schedCount = 0 + 1 ∧
    (runCycle ⟨[], [], false, 0, []⟩
        [⟨.set, "a", [], some (.num 1)⟩,
         ⟨.set, "a", [], some (.num 2)⟩]).published =
      [] ++ [[⟨.set, "a", [], some (.num 1)⟩, ⟨.set, "a", [], some (.num 2)⟩]] ∧
    (runCycle (runCycle ⟨[], [], false, 0, []⟩
        [⟨.set, "a", [], some (.num 1)⟩, ⟨.set, "a", [], some (.num 2)⟩])
        [⟨.set, "a", [], some (.num 3)⟩]).published =
      [] ++ [[⟨.set, "a", [], some (.num 1)⟩, ⟨.set, "a", [], some (.num 2)⟩]]
        ++ (if ([⟨.set, "a", [], some (.num 3)⟩] : List Patch) = []
            then [] else [[⟨.set, "a", [], some (.num 3)⟩]]) := by
  have h := c2_batch_coalescing ⟨[], [], false, 0, []⟩
    [⟨.set, "a", [], some (.num 1)⟩, ⟨.set, "a", [], some (.num 2)⟩]
    [⟨.set, "a", [], some (.num 3)⟩] rfl rfl (by decide)
  exact ⟨by decide, h.1, h.2.1, h.2.2.2.2⟩

/-- C8: applying the same patch twice to a mirror leaves it in the same
state as applying it once, for every mirror value and every patch (the
applier is total in the model, so the second application — like the first —
never raises: missing containers and non-container parents are silently
skipped rather than thrown on). -/
theorem c8_idempotent_application (m : Value) (p : Patch) :
    applyPatch (applyPatch m p) p = applyPatch m p := by
  obtain ⟨op, key, path, val⟩ := p
  match path with
  | [] => cases op <;> simp [applyPatch, updateAtPath_idem]
  | [s] =>
      by_cases h : op = .set
      · simp [applyPatch, h]
      · simp [applyPatch, h]
  | s :: s2 :: rest => cases op <;> simp [applyPatch, updateAtPath_idem]

/-- C10: `SyncItemReceiver.applyPatch` treats a path of exactly one step as
a root-level patch and changes the mirror only for `set`; `delete`, `add`
and `clear` at that depth leave the item's mirror untouched (so e.g. a
root-level Map or Set clear from the producer is never reflected). -/
theorem c10_root_level_non_set_noop (m : Value) (p : Patch)
    (hlen : p.path.length = 1) (hop : p.op ≠ .set) : applyPatch m p = m := by
  obtain ⟨op, key, path, val⟩ := p
  match path with
  | [s] => simp_all [applyPatch]

/-- C10 witness: a `clear` patch addressed at a root-level Map leaves a
non-empty Map mirror unchanged. -/
theorem c10_root_level_non_set_noop_witness :
    applyPatch (.map (.cons (.str "a") (.num 1) .nil))
      ⟨.clear, "m", [.str "m"], none⟩ = .map (.cons (.str "a") (.num 1) .nil) :=
  c10_root_level_non_set_noop (.map (.cons (.str "a") (.num 1) .nil))
    ⟨.clear, "m", [.str "m"], none⟩ (by decide) (by decide)

/-- C3 counterexample: a `set` patch with an empty path does not replace
the addressed item's mirror — `SyncNamespaceReceiver.applyPatches` skips
any patch whose path length is zero (`continue`), so the mirror keeps its
old value instead of `patch.value`. -/
theorem c3_empty_path_set_skipped :
    recvApplyPatches ⟨[("hi", .num 1)], .obj .nil⟩
        [⟨.set, "hi", [], some (.num 9)⟩] =
      ⟨[("hi", .num 1)], .obj .nil⟩ ∧
    Value.num 1 ≠ Value.num 9 := by
  constructor
  · rfl
  · decide

/-- C3 amended: wholesale mirror replacement happens one level down the
addressing scheme the receiver actually uses — a `set` patch whose path is
exactly one step (the item key in `path[0]`) replaces the item's mirror
with `patch.value`, while a patch with an empty path is skipped by the
namespace receiver without being applied at all. -/
theorem c3_root_replacement (m x : Value) (key : String) (k : Step)
    (st : NsRecv) (p : Patch) (hp : p.path = []) :
    applyPatch m ⟨.set, key, [k], some x⟩ = x ∧ recvStep st p = st := by
  constructor
  · simp [applyPatch]
  · obtain ⟨op, pk, path, val⟩ := p
    simp at hp
    subst hp
    rfl

/-- C3 amended witness: replacing the mirror `1` of item `hi` with `7`
through a one-step `set` patch, and skipping an empty-path patch. -/
theorem c3_root_replacement_witness :
    applyPatch (.num 1) ⟨.set, "hi", [.str "hi"], some (.num 7)⟩ = .num 7 ∧
    recvStep ⟨[("hi", .num 1)], .obj .nil⟩ ⟨.set, "hi", [], some (.num 9)⟩ =
      ⟨[("hi", .num 1)], .obj .nil⟩ :=
  c3_root_replacement (.num 1) (.num 7) "hi" (.str "hi")
    ⟨[("hi", .num 1)], .obj .nil⟩ ⟨.set, "hi", [], some (.num 9)⟩ (by decide)

/-- C9: a patch whose parent/container cannot be located on the mirror
(navigation to its container path resolves to nothing) is a silent no-op
on the item's mirror, and inside a delivered batch it does not prevent the
remaining patches from being applied (one-step paths are excluded: a
root-level `set` replaces without navigating and has no intermediate
steps). -/
theorem c9_missing_parent_noop :
    (∀ (m : Value) (p : Patch), p.path.length ≠ 1 →
      (navigate m (containerSteps p)).isMissing = true → applyPatch m p = m) ∧
    (∀ (st : NsRecv) (k : String) (t : List Step) (p : Patch)
        (rest : List Patch) (m : Value),
      p.path = .str k :: t → lookupFirst st.items k = some m →
      p.path.length ≠ 1 → (navigate m (containerSteps p)).isMissing = true →
      recvApplyPatches st (p :: rest) = recvApplyPatches st rest) := by
  have part1 : ∀ (m : Value) (p : Patch), p.path.length ≠ 1 →
      (navigate m (containerSteps p)).isMissing = true → applyPatch m p = m := by
    intro m p hlen h
    obtain ⟨op, key, path, val⟩ := p
    match path with
    | [] =>
        cases op <;>
          · simp [containerSteps] at h
            simp [applyPatch]
            exact updateAtPath_missing _ _ _ h
    | [s] => simp at hlen
    | s :: s2 :: rest =>
        cases op <;>
          · simp [containerSteps] at h
            simp [applyPatch]
            exact updateAtPath_missing _ _ _ h
  refine ⟨part1, ?_⟩
  intro st k t p rest m hp hlook hlen h
  have hstep : recvStep st p = st := by
    simp only [recvStep, hp, hlook]
    rw [part1 m p hlen h, setAssocFirst_self st.items k m hlook]
  show List.foldl recvStep st (p :: rest) = List.foldl recvStep st rest
  rw [List.foldl_cons, hstep]

/-- C9 witness: a nested `set` under the absent branch `zz` of item `k`
leaves the mirror untouched and lets the following patch of the batch
apply as if the dropped patch were not there. -/
theorem c9_missing_parent_noop_witness :
    applyPatch (.obj (.cons "a" (.num 1) .nil))
        ⟨.set, "k", [.str "k", .str "zz", .str "b"], some (.num 5)⟩ =
      .obj (.cons "a" (.num 1) .nil) ∧
    recvApplyPatches ⟨[("k", .obj (.cons "a" (.num 1) .nil))], .obj .nil⟩
        [⟨.set, "k", [.str "k", .str "zz", .str "b"], some (.num 5)⟩,
         ⟨.set, "k", [.str "k", .str "a"], some (.num 2)⟩] =
      recvApplyPatches ⟨[("k", .obj (.cons "a" (.num 1) .nil))], .obj .nil⟩
        [⟨.set, "k", [.str "k", .str "a"], some (.num 2)⟩] :=
  ⟨c9_missing_parent_noop.1 (.obj (.cons "a" (.num 1) .nil))
      ⟨.set, "k", [.str "k", .str "zz", .str "b"], some (.num 5)⟩
      (by decide) (by decide),
   c9_missing_parent_noop.2 ⟨[("k", .obj (.cons "a" (.num 1) .nil))], .obj .nil⟩
      "k" [.str "zz", .str "b"]
      ⟨.set, "k", [.str "k", .str "zz", .str "b"], some (.num 5)⟩
      [⟨.set, "k", [.str "k", .str "a"], some (.num 2)⟩]
      (.obj (.cons "a" (.num 1) .nil))
      (by decide) (by decide) (by decide) (by decide)⟩

/-- C7: on an observed Map node, `delete(k)` always performs the delete
but emits its delete patch only if the key existed before, and `clear()`
emits a single clear patch only if the map was non-empty; on an observed
Set node, `add(v)` emits only if the element was absent, `delete(v)` only
if it was present, `clear()` only if non-empty; each call performs its
underlying effect (key gone / element present / element gone / container
empty) and emits at most one patch (each trap's patch list is either the
single stated patch or empty). -/
theorem c7_container_trap_emission (rk : String) (base : List Step)
    (es : Entries) (xs : Elems) (k : Step) (x : Value) :
    (mapProxyDelete rk base es k).1.hasK k = false ∧
    ((mapProxyDelete rk base es k).2 = [⟨.delete, rk, base ++ [k], none⟩] ↔
      es.hasK k = true) ∧
    ((mapProxyDelete rk base es k).2 = [] ↔ es.hasK k = false) ∧
    (mapProxyClear rk base es).1 = .nil ∧
    ((mapProxyClear rk base es).2 = [⟨.clear, rk, base, none⟩] ↔ es ≠ .nil) ∧
    ((mapProxyClear rk base es).2 = [] ↔ es = .nil) ∧
    (setProxyAdd rk base xs x).1.hasV x = true ∧
    ((setProxyAdd rk base xs x).2 = [⟨.add, rk, base, some x⟩] ↔
      xs.hasV x = false) ∧
    ((setProxyAdd rk base xs x).2 = [] ↔ xs.hasV x = true) ∧
    (setProxyDelete rk base xs x).1.hasV x = false ∧
    ((setProxyDelete rk base xs x).2 = [⟨.delete, rk, base, some x⟩] ↔
      xs.hasV x = true) ∧
    ((setProxyDelete rk base xs x).2 = [] ↔ xs.hasV x = false) ∧
    (setProxyClear rk base xs).1 = .nil ∧
    ((setProxyClear rk base xs).2 = [⟨.clear, rk, base, none⟩] ↔ xs ≠ .nil) ∧
    ((setProxyClear rk base xs).2 = [] ↔ xs = .nil) := by
  refine ⟨Entries.hasK_erase es k, ?_, ?_, ?_, ?_, ?_,
    Elems.hasV_add xs x, ?_, ?_,
    Elems.hasV_erase xs x, ?_, ?_,
    ?_, ?_, ?_⟩
  · by_cases h : es.hasK k <;> simp [mapProxyDelete, h]
  · by_cases h : es.hasK k <;> simp [mapProxyDelete, h]
  · cases es <;> simp [mapProxyClear]
  · cases es <;> simp [mapProxyClear]
  · cases es <;> simp [mapProxyClear]
  · by_cases h : xs.hasV x <;> simp [setProxyAdd, h]
  · by_cases h : xs.hasV x <;> simp [setProxyAdd, h]
  · by_cases h : xs.hasV x <;> simp [setProxyDelete, h]
  · by_cases h : xs.hasV x <;> simp [setProxyDelete, h]
  · cases xs <;> simp [setProxyClear]
  · cases xs <;> simp [setProxyClear]
  · cases xs <;> simp [setProxyClear]

/-- C4 counterexample: `set` does not invoke the updater with the raw
(unwrapped) root value — it passes `this.value`, the proxy-wrapped root.
For the state `{a: 1}` and an updater that assigns `a := 2` and returns
nothing, the code emits the mutation's patch, while the claim's
raw-invocation semantics (`itemSetClaimC4`) emits none. -/
theorem c4_updater_not_raw :
    itemSet "hello" (.obj (.cons "a" (.num 1) .nil))
        (.upd [.assign [] "a" (.num 2)] none) ≠
      itemSetClaimC4 "hello" (.obj (.cons "a" (.num 1) .nil))
        (.upd [.assign [] "a" (.num 2)] none) ∧
    (itemSet "hello" (.obj (.cons "a" (.num 1) .nil))
        (.upd [.assign [] "a" (.num 2)] none)).2 =
      [⟨.set, "hello", [.str "a"], some (.num 2)⟩] ∧
    (itemSetClaimC4 "hello" (.obj (.cons "a" (.num 1) .nil))
        (.upd [.assign [] "a" (.num 2)] none)).2 = [] := by
  refine ⟨?_, ?_, ?_⟩ <;> decide

/-- C4 amended: `set(updater)` invokes the updater with the current
*proxy-wrapped* root (so the mutations it performs on its argument emit
their patches, queued before any root patch), and a non-`undefined` return
value then replaces the root wholesale exactly as in the concrete-value
case: same final value and, after the updater's own patches, the same
emitted patch list as `set(returnValue)`; an updater returning nothing
contributes exactly its wrapped run. -/
theorem c4_updater_wrapped_then_concrete (key : String) (cur r : Value)
    (cmds : List MutCmd) :
    (itemSet key cur (.upd cmds (some r))).1 = (itemSet key cur (.val r)).1 ∧
    (itemSet key cur (.upd cmds (some r))).2 =
      (runCmdsW key cur cmds).2 ++ (itemSet key cur (.val r)).2 ∧
    itemSet key cur (.upd cmds none) = runCmdsW key cur cmds := by
  refine ⟨?_, ?_, ?_⟩ <;> simp [itemSet, itemSetValue]

/-- C5 counterexample: registering `k` with initial value `1` in a fresh
namespace does emit a patch — the constructor routes the initial value
through `setValue`, which queues the root `set` patch and schedules a
flush, and that flush then publishes a batch. -/
theorem c5_initial_value_emits :
    nsSync ⟨[], [], false, 0, []⟩ "k" (some (.num 1)) =
      .ok ⟨[("k", .num 1)], [⟨.set, "k", [], some (.num 1)⟩], true, 1, []⟩ ∧
    (emitPatches
        ⟨[("k", .num 1)], [⟨.set, "k", [], some (.num 1)⟩], true, 1, []⟩).published =
      [[⟨.set, "k", [], some (.num 1)⟩]] ∧
    ([⟨.set, "k", [], some (.num 1)⟩] : List Patch) ≠ [] := by
  refine ⟨rfl, rfl, ?_⟩
  decide

/-- C5 amended: `namespace.sync(key, initialValue)` on an unregistered key
succeeds and installs the wrapped initial value as the current root, but
it also emits exactly one wholesale root patch `{op: set, key, path: [],
value}` into the pending queue and leaves a flush scheduled; when the
queue held nothing else, that flush publishes the patch as its own batch. -/
theorem c5_initial_sync_queues_root_patch (st : NsProv) (key : String)
    (v : Value) (h : lookupFirst st.items key = none) :
    ∃ st', nsSync st key (some v) = .ok st' ∧
      st'.items = st.items ++ [(key, v)] ∧
      st'.queued = st.queued ++ [⟨.set, key, [], some v⟩] ∧
      st'.timeoutSet = true ∧
      st'.published = st.published ∧
      (st.queued = [] →
        (emitPatches st').published =
          st.published ++ [[⟨.set, key, [], some v⟩]]) := by
  refine ⟨queuePatch { st with items := st.items ++ [(key, v)] }
      ⟨.set, key, [], some v⟩, ?_, ?_, ?_, ?_, ?_, ?_⟩
  · simp [nsSync, h, itemSetValue, nsQueueAll]
  · simp [queuePatch]
  · simp [queuePatch]
  · simp [queuePatch]
  · simp [queuePatch]
  · intro hq
    rw [emitPatches_of_ne _ (by simp [queuePatch, hq])]
    simp [queuePatch, hq]

/-- C5 amended witness: the concrete fresh-namespace registration of C5's
counterexample, through the amended statement. -/
theorem c5_initial_sync_queues_root_patch_witness :
    ∃ st', nsSync ⟨[], [], false, 0, []⟩ "k" (some (.num 1)) = .ok st' ∧
      st'.items = [] ++ [("k", .num 1)] ∧
      st'.queued = [] ++ [⟨.set, "k", [], some (.num 1)⟩] ∧
      st'.timeoutSet = true ∧
      st'.published = [] ∧
      (([] : List Patch) = [] →
        (emitPatches st').published =
          [] ++ [[⟨.set, "k", [], some (.num 1)⟩]]) :=
  c5_initial_sync_queues_root_patch ⟨[], [], false, 0, []⟩ "k" (.num 1) rfl

/-- C6 counterexample: the consumer-side `sync` for a key with no
registered item does not fail — on a namespace whose snapshot lacks `x`
it succeeds and hands out a mirror item whose value is `undefined`. -/
theorem c6_receiver_sync_succeeds :
    recvSync ⟨[], .obj .nil⟩ "x" = (⟨[("x", .undef)], .obj .nil⟩, .undef) := rfl

/-- C6 amended: requesting the snapshot of an unregistered namespace on the
producer fails loudly (`Namespace … not found`), but the consumer-side
`sync(key)` for a key with no registered item never fails: it succeeds,
registering and returning a mirror whose value is the namespace snapshot
record's entry for that key (`this.snapshot[key]`) — the buffered value
when the snapshot holds the key, `undefined` when it has no such property. -/
theorem c6_unregistered_lookup (pv : Prov) (name : String) (st : NsRecv)
    (key : String) (fs : Fields) (hns : assocNs pv.namespaces name = none)
    (hl : lookupFirst st.items key = none) (hs : st.snapshot = .obj fs) :
    getStateSnapshot pv name = .error ("Namespace " ++ name ++ " not found") ∧
    (recvSync st key).2 = fs.getD key ∧
    lookupFirst (recvSync st key).1.items key = some (fs.getD key) ∧
    (fs.hasK key = false → (recvSync st key).2 = .undef) := by
  have hv : st.snapshot.access (.str key) = fs.getD key := by
    rw [hs]
    simp [Value.access, Step.toProp]
  refine ⟨?_, ?_, ?_, ?_⟩
  · simp [getStateSnapshot, hns]
  · simp [recvSync, hl, hv]
  · simp [recvSync, hl, hv]
    exact lookupFirst_append_new st.items key (fs.getD key) hl
  · intro hk
    simp [recvSync, hl, hv, Fields.getD_of_not_hasK fs key hk]

/-- C6 witness: the unregistered namespace `ns`, and the key `x` that is
present in the snapshot (value `5`) but not yet synced — `sync` succeeds
and hands out the buffered snapshot entry. -/
theorem c6_unregistered_lookup_witness :
    getStateSnapshot ⟨[]⟩ "ns" = .error ("Namespace " ++ "ns" ++ " not found") ∧
    (recvSync ⟨[], .obj (.cons "x" (.num 5) .nil)⟩ "x").2 =
      (Fields.cons "x" (.num 5) .nil).getD "x" ∧
    lookupFirst
        (recvSync ⟨[], .obj (.cons "x" (.num 5) .nil)⟩ "x").1.items "x" =
      some ((Fields.cons "x" (.num 5) .nil).getD "x") ∧
    ((Fields.cons "x" (.num 5) .nil).hasK "x" = false →
      (recvSync ⟨[], .obj (.cons "x" (.num 5) .nil)⟩ "x").2 = .undef) :=
  c6_unregistered_lookup ⟨[]⟩ "ns" ⟨[], .obj (.cons "x" (.num 5) .nil)⟩ "x"
    (.cons "x" (.num 5) .nil) rfl rfl rfl

/-- C1 failing input, evaluated end to end: a namespace with one item `hi`
initialized to `1`, mirrored by the consumer from the bootstrap snapshot;
the single mutation `item.set(2)` emits the wholesale root patch
`{op: set, key: hi, path: [], value: 2}`, the cycle publishes it as one
batch, and the consumer applies every published batch in order — yet
`SyncNamespaceReceiver.applyPatches` skips every patch whose path length
is zero (and routes the rest by `path[0]`, not by `patch.key`), so the
mirror stays at `1` while the producer's raw root is `2`: the mirror does
not deep-equal the producer's root after full delivery. -/
theorem c1_pipeline_divergence :
    nsSync ⟨[], [], false, 0, []⟩ "hi" (some (.num 1)) =
      .ok ⟨[("hi", .num 1)], [⟨.set, "hi", [], some (.num 1)⟩], true, 1, []⟩ ∧
    emitPatches ⟨[("hi", .num 1)], [⟨.set, "hi", [], some (.num 1)⟩], true, 1, []⟩ =
      ⟨[("hi", .num 1)], [], false, 1, [[⟨.set, "hi", [], some (.num 1)⟩]]⟩ ∧
    getStateSnapshot
        ⟨[("ns", ⟨[("hi", .num 1)], [], false, 1,
            [[⟨.set, "hi", [], some (.num 1)⟩]]⟩)]⟩ "ns" =
      .ok (.obj (.cons "hi" (.num 1) .nil)) ∧
    recvSync ⟨[], .obj (.cons "hi" (.num 1) .nil)⟩ "hi" =
      (⟨[("hi", .num 1)], .obj (.cons "hi" (.num 1) .nil)⟩, .num 1) ∧
    nsMutate ⟨[("hi", .num 1)], [], false, 1,
        [[⟨.set, "hi", [], some (.num 1)⟩]]⟩ "hi" (.val (.num 2)) =
      ⟨[("hi", .num 2)], [⟨.set, "hi", [], some (.num 2)⟩], true, 2,
        [[⟨.set, "hi", [], some (.num 1)⟩]]⟩ ∧
    emitPatches ⟨[("hi", .num 2)], [⟨.set, "hi", [], some (.num 2)⟩], true, 2,
        [[⟨.set, "hi", [], some (.num 1)⟩]]⟩ =
      ⟨[("hi", .num 2)], [], false, 2,
        [[⟨.set, "hi", [], some (.num 1)⟩],
         [⟨.set, "hi", [], some (.num 2)⟩]]⟩ ∧
    recvApplyPatches
        (recvApplyPatches ⟨[("hi", .num 1)], .obj (.cons "hi" (.num 1) .nil)⟩
          [⟨.set, "hi", [], some (.num 1)⟩])
        [⟨.set, "hi", [], some (.num 2)⟩] =
      ⟨[("hi", .num 1)], .obj (.cons "hi" (.num 1) .nil)⟩ ∧
    Value.num 1 ≠ Value.num 2 := by
  refine ⟨rfl, rfl, rfl, rfl, rfl, rfl, rfl, ?_⟩
  decide
